import Mathlib

/-!
Verification of the subcube-extraction library (`funcs_data.py` of
getData-SST).

Modelling conventions.
The binary field file is modelled at sample granularity as `file : List ℚ`:
entry `s` is the 4-byte little-endian float stored at byte offset
`s * nbyte`.  Every positioned read the code performs falls on an `nbyte`
boundary (every summand of every computed position carries a factor
`nbyte`), so this representation is exact.  IEEE-754 float values are
modelled as exact rationals; machine text (`loadpath`) is dropped and the
file contents are passed directly.  Fallible operations return `Option`:
`none` models a raised Python exception, and any exception aborts the
whole call, as in the source.
-/

namespace SST

/-- Model of `binary.read(nbyte)` followed by `struct.unpack("<f", ...)` at
byte position `pos` (funcs_data.py lines 137-138): the read returns the
bytes available from `pos` on, and `struct.unpack` raises unless exactly
`nbyte` bytes were obtained; on success the value is the sample stored at
`pos` (which is always `nbyte`-aligned in this program). -/
def readFloat (file : List ℚ) (nbyte pos : ℕ) : Option ℚ :=
  if pos + nbyte ≤ nbyte * file.length then some (file.getD (pos / nbyte) 0) else none

/-- Model of `check_data` (funcs_data.py lines 10-35).  The function seeks
to the end of the file, obtains `num_bytes`, and succeeds iff
`int(num_bytes/nbyte) == nx*ny*nz`, raising `Exception` otherwise.
`int(num_bytes/nbyte)` (truncating float division) is modelled as exact
floor division, which agrees with the Python value whenever `num_bytes`
is exactly representable as a double (any file below 2^53 bytes, the
element size used by the program being the power of two 4). -/
def check_data (numBytes nx ny nz nbyte : ℕ) : Bool :=
  decide (numBytes / nbyte = nx * ny * nz)

/-- Model of `numpy.linspace(a, b, n)` with the default `endpoint=True`:
`n` evenly spaced values from `a` to `b` with both endpoints included when
`n ≥ 2`; for `n = 1` numpy returns the single value `[a]`, and for
`n = 0` the empty array. -/
def linspace (a b : ℚ) (n : ℕ) : List ℚ :=
  if n = 0 then []
  else if n = 1 then [a]
  else (List.range n).map (fun (i : ℕ) => a + (i : ℚ) * ((b - a) / ((n : ℚ) - 1)))

/-- Model of `get_1Dgrid` (funcs_data.py lines 37-56):
`dx = Lh/nx`, `xin = 0 + dx*nxoffset`, `xfi = xin + dx*nxsl*nxskip`,
returns `np.linspace(xin, xfi, nxsl)`. -/
def get_1Dgrid (Lh : ℚ) (nx nxoffset nxsl nxskip : ℕ) : List ℚ :=
  let dx := Lh / (nx : ℚ)
  let xin := 0 + dx * (nxoffset : ℚ)
  let xfi := xin + dx * (nxsl : ℚ) * (nxskip : ℚ)
  linspace xin xfi nxsl

/-- Loop combinator shared by the extraction loops of funcs_data.py: run a
body `blk` for `n` iterations, feeding it an accumulator that starts at `a`
and is incremented by `d` after every iteration (the
`nxshift += (nx*nyskip)*nbyte` / `nyshift += ((nx*ny)*nzskip)*nbyte`
pattern of lines 132-141 and 235-241; with `d = 1` the accumulator is the
plain loop counter).  Results are collected in iteration order and a
raised exception (`none`) in any iteration aborts the whole loop. -/
def optRows {α : Type} (blk : ℕ → Option α) (d a : ℕ) : ℕ → Option (List α)
  | 0 => some []
  | n + 1 =>
    Option.bind (blk a) (fun b =>
      Option.bind (optRows blk d (a + d) n) (fun rest => some (b :: rest)))

/-- Semantics of `datacube.reshape(nzsl, nysl, nxsl).transpose(2, 1, 0)`
(funcs_data.py lines 146-148) applied to the nested `[k][j][i]` list of
values that the extraction loops fill in order (`k` outermost and `i`
innermost, exactly the order in which the flat buffer is written): the
result is indexed `[x][y][z]` with `result[x][y][z] = c[z][y][x]`.  Also
the semantics of the column assignments `datacube[:, j, k] = row` into the
`np.zeros((nxsl, nysl, nzsl))` array of `get_data_fromfile` (lines
232-239), where `c` is the `[k][j]` list of rows. -/
def transposeZYX (c : List (List (List ℚ))) (nxsl nysl nzsl : ℕ) : List (List (List ℚ)) :=
  (List.range nxsl).map fun x =>
    (List.range nysl).map fun y =>
      (List.range nzsl).map fun z => ((c.getD z []).getD y []).getD x 0

/-- Semantics of `sub_cube.copy().transpose(2, 1, 0)` (funcs_data.py line
192) where `sub_cube` has whatever (possibly clamped) shape the strided
slice produced: the axis extents are taken from the array itself. -/
def transpose210 (c : List (List (List ℚ))) : List (List (List ℚ)) :=
  transposeZYX c ((c.getD 0 []).getD 0 []).length (c.getD 0 []).length c.length

/-- Element accessor for a nested `[x][y][z]` cube. -/
def at3 (c : List (List (List ℚ))) (x y z : ℕ) : ℚ :=
  ((c.getD x []).getD y []).getD z 0

/-- Closed form of the byte position read for logical coordinate
`(i, j, k)` by `get_data_single_points` (funcs_data.py lines 121-141):
`init + (i*nxskip)*nbyte + nxshift + nyshift` with
`init = nzoff + nyoff + nxoff`, `nxshift` accumulated `j` times and
`nyshift` accumulated `k` times. -/
def seekPos (nx ny nxoffset nyoffset nzoffset nxskip nyskip nzskip nbyte i j k : ℕ) : ℕ :=
  (nzoffset * (nx * ny * nbyte) + nyoffset * (nx * nbyte) + nxoffset * nbyte)
    + (i * nxskip) * nbyte + j * ((nx * nyskip) * nbyte) + k * (((nx * ny) * nzskip) * nbyte)

/-- The loop nest of `get_data_single_points` (funcs_data.py lines
121-151), parametric in the positioned-read operation `rf` so that the
byte positions actually read can be observed: `init` is the byte offset of
the initial corner, the three nested loops perform one positioned read per
logical sample, and the filled flat buffer is reshaped to
`(nzsl, nysl, nxsl)` and transposed to `(x, y, z)` order.  `nz` is a
parameter of the source function but is never used by it. -/
def seekExtract (rf : ℕ → Option ℚ)
    (nx ny nz nxsl nysl nzsl nxoffset nyoffset nzoffset nxskip nyskip nzskip nbyte : ℕ) :
    Option (List (List (List ℚ))) :=
  let nxoff := nxoffset * nbyte
  let nyoff := nyoffset * (nx * nbyte)
  let nzoff := nzoffset * (nx * ny * nbyte)
  let init := nzoff + nyoff + nxoff
  match optRows (fun nyshift =>
          optRows (fun nxshift =>
              optRows (fun i => rf (init + (i * nxskip) * nbyte + nxshift + nyshift)) 1 0 nxsl)
            ((nx * nyskip) * nbyte) 0 nysl)
          (((nx * ny) * nzskip) * nbyte) 0 nzsl with
  | some cube => some (transposeZYX cube nxsl nysl nzsl)
  | none => none

/-- Model of `get_data_single_points` (funcs_data.py lines 96-151): the
seek loop nest reading from an actual file. -/
def get_data_single_points (file : List ℚ)
    (nx ny nz nxsl nysl nzsl nxoffset nyoffset nzoffset nxskip nyskip nzskip nbyte : ℕ) :
    Option (List (List (List ℚ))) :=
  seekExtract (readFloat file nbyte)
    nx ny nz nxsl nysl nzsl nxoffset nyoffset nzoffset nxskip nyskip nzskip nbyte

/-- Index list of the Python slice `start:stop:step` (`step > 0`) over an
axis of length `len`, with Python's silent clamping of `start` and `stop`
to the axis length: indices `start, start+step, ...` strictly below
`min stop len`. -/
def pySlice (len start stop step : ℕ) : List ℕ :=
  let start2 := min start len
  let stop2 := min stop len
  (List.range ((stop2 - start2 + step - 1) / step)).map (fun t => start2 + t * step)

/-- Model of `get_data_memmap` (funcs_data.py lines 153-199):
`np.memmap(loadpath, dtype=np.float32, mode='r', shape=(nz, ny, nx))`
raises `ValueError` (`none`) when the file holds fewer than `nx*ny*nz`
samples and otherwise views the first `nx*ny*nz` samples as a `[z][y][x]`
array; the strided basic slice
`[nzoffset:nzoffset+nzsl*nzskip:nzskip, ...]` selects the `pySlice`
indices on each axis, and the copy is transposed to `(x, y, z)` order
(`transpose(2, 1, 0)`), the axis extents being those of the slice. -/
def get_data_memmap (file : List ℚ)
    (nx ny nz nxsl nysl nzsl nxoffset nyoffset nzoffset nxskip nyskip nzskip : ℕ) :
    Option (List (List (List ℚ))) :=
  if nx * ny * nz ≤ file.length then
    some (transpose210
      ((pySlice nz nzoffset (nzoffset + nzsl * nzskip) nzskip).map fun zv =>
        (pySlice ny nyoffset (nyoffset + nysl * nyskip) nyskip).map fun yv =>
          (pySlice nx nxoffset (nxoffset + nxsl * nxskip) nxskip).map fun xv =>
            file.getD (xv + nx * (yv + ny * zv)) 0))
  else none

/-- Model of `np.fromfile(loadpath, dtype=np.float32, count=count,
offset=offset)`: reads `count` consecutive samples starting at byte
`offset`, or as many as the file still holds.  The offsets this program
passes are always `nbyte`-aligned. -/
def np_fromfile (file : List ℚ) (nbyte count offset : ℕ) : List ℚ :=
  (file.drop (offset / nbyte)).take count

/-- Python extended slice `row[::step]` (`step > 0`): every `step`-th
element, `⌈len/step⌉` of them. -/
def everyNth (l : List ℚ) (step : ℕ) : List ℚ :=
  (List.range ((l.length + step - 1) / step)).map fun t => l.getD (t * step) 0

/-- One `(k, j)` iteration of `get_data_fromfile` (funcs_data.py line
239): `np.fromfile(loadpath, dtype=np.float32, count=nxsl*nxskip,
offset=pos)[::nxskip]`, followed by the assignment `datacube[:, j, k] =
row`, which raises a broadcast `ValueError` (`none`) unless the kept row
has exactly `nxsl` entries. -/
def fromfileRow (file : List ℚ) (nbyte nxsl nxskip offset : ℕ) : Option (List ℚ) :=
  let row := everyNth (np_fromfile file nbyte (nxsl * nxskip) offset) nxskip
  if row.length = nxsl then some row else none

/-- Model of `get_data_fromfile` (funcs_data.py lines 201-245): for every
`(k, j)` one contiguous `np.fromfile` read of `nxsl*nxskip` samples at
`pos = init + nxshift + nyshift`, of which every `nxskip`-th is kept; the
rows fill the `np.zeros((nxsl, nysl, nzsl))` array in `(x, y, z)`
order. -/
def get_data_fromfile (file : List ℚ)
    (nx ny nz nxsl nysl nzsl nxoffset nyoffset nzoffset nxskip nyskip nzskip nbyte : ℕ) :
    Option (List (List (List ℚ))) :=
  let nxoff := nxoffset * nbyte
  let nyoff := nyoffset * (nx * nbyte)
  let nzoff := nzoffset * (nx * ny * nbyte)
  let init := nzoff + nyoff + nxoff
  match optRows (fun nyshift =>
          optRows (fun nxshift =>
              fromfileRow file nbyte nxsl nxskip (init + nxshift + nyshift))
            ((nx * nyskip) * nbyte) 0 nysl)
          (((nx * ny) * nzskip) * nbyte) 0 nzsl with
  | some rows => some (transposeZYX rows nxsl nysl nzsl)
  | none => none

/-- Model of the dispatcher `get_data` (funcs_data.py lines 58-93):
selects one of the three strategies by name and raises
`NotImplementedError` (`none`) for anything else. -/
def get_data (method : String) (file : List ℚ)
    (nx ny nz nxsl nysl nzsl nxoffset nyoffset nzoffset nxskip nyskip nzskip nbyte : ℕ) :
    Option (List (List (List ℚ))) :=
  if method = "seek" then
    get_data_single_points file nx ny nz nxsl nysl nzsl nxoffset nyoffset nzoffset nxskip nyskip nzskip nbyte
  else if method = "memmap" then
    get_data_memmap file nx ny nz nxsl nysl nzsl nxoffset nyoffset nzoffset nxskip nyskip nzskip
  else if method = "fromfile" then
    get_data_fromfile file nx ny nz nxsl nysl nzsl nxoffset nyoffset nzoffset nxskip nyskip nzskip nbyte
  else none

/-- The common value all three strategies are proved to return on a valid
specification: the `(nxsl, nysl, nzsl)` cube whose `(x, y, z)` entry is
the file sample at flat index
`(nxoffset + x*nxskip) + nx*((nyoffset + y*nyskip) + ny*(nzoffset + z*nzskip))`. -/
def expectedCube (file : List ℚ)
    (nx ny nxsl nysl nzsl nxoffset nyoffset nzoffset nxskip nyskip nzskip : ℕ) :
    List (List (List ℚ)) :=
  (List.range nxsl).map fun x =>
    (List.range nysl).map fun y =>
      (List.range nzsl).map fun z =>
        file.getD ((nxoffset + x * nxskip) + nx * ((nyoffset + y * nyskip) + ny * (nzoffset + z * nzskip))) 0

/-- The synthetic file of spec.md section 8: `nx = 4`, `ny = 3`, `nz = 2`,
and the sample at flat index `f = x + 4*(y + 3*z)` has value `float(f)`. -/
def file24 : List ℚ :=
  [0, 1, 2, 3, 4, 5, 6, 7, 8, 9, 10, 11, 12, 13, 14, 15, 16, 17, 18, 19, 20, 21, 22, 23]

end SST
section Helpers

namespace SST

lemma optRows_eq_some {α : Type} (blk : ℕ → Option α) (d : ℕ) :
    ∀ (n : ℕ) (g : ℕ → α) (a : ℕ), (∀ t, t < n → blk (a + t * d) = some (g t)) →
    optRows blk d a n = some ((List.range n).map g) := by
  intro n
  induction n with
  | zero => intro g a _; simp [optRows]
  | succ m ih =>
    intro g a h
    have h0 : blk a = some (g 0) := by simpa using h 0 (Nat.succ_pos m)
    have hrest : optRows blk d (a + d) m = some ((List.range m).map (fun t => g (t + 1))) := by
      apply ih
      intro t ht
      have := h (t + 1) (by omega)
      rwa [show a + (t + 1) * d = a + d + t * d by ring] at this
    simp [optRows, h0, hrest, List.range_succ_eq_map, List.map_map]

lemma optRows_eq_none {α : Type} (blk : ℕ → Option α) (d : ℕ) :
    ∀ (n a t : ℕ), t < n → blk (a + t * d) = none →
    optRows blk d a n = none := by
  intro n
  induction n with
  | zero => intro a t ht _; omega
  | succ m ih =>
    intro a t ht hb
    cases t with
    | zero =>
      simp only [Nat.zero_mul, Nat.add_zero] at hb
      simp [optRows, hb]
    | succ t' =>
      cases hblk : blk a with
      | none => simp [optRows, hblk]
      | some b =>
        have hrest : optRows blk d (a + d) m = none := by
          apply ih (a + d) t' (by omega)
          rwa [show a + d + t' * d = a + (t' + 1) * d by ring]
        simp [optRows, hblk, hrest]

lemma getD_range_map {α : Type} (f : ℕ → α) (dflt : α) {t n : ℕ} (h : t < n) :
    ((List.range n).map f).getD t dflt = f t := by
  rw [List.getD_eq_getElem _ _ (by simpa using h)]
  simp

lemma addMulLt {a A b B : ℕ} (ha : a < A) (hb : b < B) : a + A * b < A * B :=
  calc a + A * b < A + A * b := Nat.add_lt_add_right ha _
    _ = A * (b + 1) := by ring
    _ ≤ A * B := Nat.mul_le_mul_left A hb

lemma axisLt {off cnt skip full : ℕ} (h : off + (cnt - 1) * skip < full) {i : ℕ} (hi : i < cnt) :
    off + i * skip < full := by
  have : i * skip ≤ (cnt - 1) * skip := Nat.mul_le_mul_right _ (by omega)
  omega

lemma get_1Dgrid_length (Lh : ℚ) (nx nxoffset nxsl nxskip : ℕ) :
    (get_1Dgrid Lh nx nxoffset nxsl nxskip).length = nxsl := by
  simp only [get_1Dgrid, linspace]
  split_ifs with h1 h2
  · simp [h1]
  · simp [h2]
  · simp

lemma get_1Dgrid_getD (Lh : ℚ) (nx nxoffset nxsl nxskip : ℕ) (h2 : 2 ≤ nxsl)
    {i : ℕ} (hi : i < nxsl) :
    (get_1Dgrid Lh nx nxoffset nxsl nxskip).getD i 0 =
      Lh / (nx : ℚ) * (nxoffset : ℚ)
        + (i : ℚ) * ((Lh / (nx : ℚ) * (nxsl : ℚ) * (nxskip : ℚ)) / ((nxsl : ℚ) - 1)) := by
  simp only [get_1Dgrid, linspace]
  rw [if_neg (by omega), if_neg (by omega), getD_range_map _ _ hi]
  ring

end SST

end Helpers

section Claim4

namespace SST

/-- C4 (counterexample): for `nx = ny = nz = 1`, `elementSizeBytes = 4`, a
file of 5 bytes differs from `nx*ny*nz*elementSizeBytes = 4` yet
`check_data` accepts it, because it compares truncated sample counts
rather than byte lengths. -/
theorem check_data_five_bytes_accepted : check_data 5 1 1 1 4 = true := by decide

/-- C4 (amended): `check_data` succeeds exactly when
`⌊numBytes/nbyte⌋ = nx*ny*nz`; in particular a file of exactly
`nx*ny*nz*nbyte` bytes is accepted and a file one byte shorter is
rejected, but a length that differs from `nx*ny*nz*nbyte` by less than
one element size is not rejected. -/
theorem check_data_floor_semantics (nx ny nz nbyte : ℕ)
    (hb : 1 ≤ nbyte) (hN : 1 ≤ nx * ny * nz) :
    check_data (nx * ny * nz * nbyte) nx ny nz nbyte = true ∧
    check_data (nx * ny * nz * nbyte - 1) nx ny nz nbyte = false ∧
    (∀ numBytes, check_data numBytes nx ny nz nbyte = true ↔
      numBytes / nbyte = nx * ny * nz) := by
  refine ⟨?_, ?_, fun numBytes => by simp [check_data]⟩
  · simp [check_data, Nat.mul_div_cancel _ hb]
  · simp only [check_data, decide_eq_false_iff_not]
    obtain ⟨m, hm⟩ : ∃ m, nx * ny * nz = m + 1 := ⟨nx * ny * nz - 1, by omega⟩
    rw [hm]
    have e1 : (m + 1) * nbyte - 1 = (nbyte - 1) + nbyte * m := by
      have : (m + 1) * nbyte = nbyte * m + nbyte := by ring
      omega
    rw [e1, Nat.add_mul_div_left _ _ (by omega : 0 < nbyte), Nat.div_eq_of_lt (by omega)]
    omega

/-- C4 (witness): exact length 8 accepted, length 7 rejected, for a
2-sample grid of 4-byte elements. -/
theorem check_data_floor_semantics_witness :
    check_data (2 * 1 * 1 * 4) 2 1 1 4 = true ∧
    check_data (2 * 1 * 1 * 4 - 1) 2 1 1 4 = false :=
  ⟨(check_data_floor_semantics 2 1 1 4 (by decide) (by decide)).1,
    (check_data_floor_semantics 2 1 1 4 (by decide) (by decide)).2.1⟩

/-- C10: `check_data` accepts a file exactly when
`⌊numBytes/nbyte⌋ = nx*ny*nz`; in particular every length exceeding
`nx*ny*nz*nbyte` by `1 ≤ b ≤ nbyte - 1` extra bytes (not an exact element
multiple) is accepted without error. -/
theorem check_data_accepts_floor (nx ny nz nbyte : ℕ) :
    (∀ numBytes, check_data numBytes nx ny nz nbyte = true ↔
      numBytes / nbyte = nx * ny * nz) ∧
    (∀ b, 1 ≤ b → b ≤ nbyte - 1 →
      check_data (nx * ny * nz * nbyte + b) nx ny nz nbyte = true) := by
  constructor
  · intro numBytes; simp [check_data]
  · intro b hb1 hb2
    simp only [check_data, decide_eq_true_eq]
    rw [show nx * ny * nz * nbyte + b = b + nbyte * (nx * ny * nz) by ring,
      Nat.add_mul_div_left _ _ (by omega : 0 < nbyte), Nat.div_eq_of_lt (by omega)]
    omega

/-- C10 (witness): `1*1*2*4 + 3 = 11` bytes are accepted for a grid of 2
samples of 4 bytes. -/
theorem check_data_accepts_floor_witness :
    check_data (1 * 1 * 2 * 4 + 3) 1 1 2 4 = true :=
  (check_data_accepts_floor 1 1 2 4).2 3 (by decide) (by decide)

end SST

end Claim4
section Claim5

namespace SST

/-- C5 (counterexample): for `physicalLength = 1`, `fullResolution = 1`,
`offset = 0`, `count = 1`, `stride = 1` the claimed end point
`start + spacing*count*stride = 1` is not among the returned values:
`numpy.linspace` with a single point returns only the start point, so the
claim fails at `count = 1`. -/
theorem get_1Dgrid_count_one_drops_end :
    get_1Dgrid 1 1 0 1 1 = [0] ∧ (1 : ℚ) ∉ get_1Dgrid 1 1 0 1 1 := by
  constructor
  · show linspace (0 + 1 / (1:ℚ) * 0) (0 + 1 / (1:ℚ) * 0 + 1 / (1:ℚ) * 1 * 1) 1 = [0]
    norm_num [linspace]
  · show (1:ℚ) ∉ linspace (0 + 1 / (1:ℚ) * 0) (0 + 1 / (1:ℚ) * 0 + 1 / (1:ℚ) * 1 * 1) 1
    norm_num [linspace]

/-- C5 (amended): `get_1Dgrid` returns exactly `count` values; for
`count ≥ 2` they are the `count` evenly spaced values from
`start = spacing*offset` to the literal
`end = start + spacing*count*stride` (not `spacing*stride*(count-1)`),
both endpoints included: the `i`-th value is
`start + i*(end-start)/(count-1)` and the last value is `end`.  For
`count = 1` only the single value `start` is returned. -/
theorem get_1Dgrid_linspace_semantics (Lh : ℚ) (nx nxoffset nxsl nxskip : ℕ)
    (h1 : 1 ≤ nxsl) :
    (get_1Dgrid Lh nx nxoffset nxsl nxskip).length = nxsl ∧
    (nxsl = 1 → get_1Dgrid Lh nx nxoffset nxsl nxskip = [Lh / (nx : ℚ) * (nxoffset : ℚ)]) ∧
    (2 ≤ nxsl → ∀ i, i < nxsl →
      (get_1Dgrid Lh nx nxoffset nxsl nxskip).getD i 0 =
        Lh / (nx : ℚ) * (nxoffset : ℚ)
          + (i : ℚ) * ((Lh / (nx : ℚ) * (nxsl : ℚ) * (nxskip : ℚ)) / ((nxsl : ℚ) - 1))) ∧
    (2 ≤ nxsl →
      (get_1Dgrid Lh nx nxoffset nxsl nxskip).getD (nxsl - 1) 0 =
        Lh / (nx : ℚ) * (nxoffset : ℚ) + Lh / (nx : ℚ) * (nxsl : ℚ) * (nxskip : ℚ)) := by
  refine ⟨get_1Dgrid_length Lh nx nxoffset nxsl nxskip, ?_, ?_, ?_⟩
  · intro hone
    subst hone
    simp only [get_1Dgrid, linspace]
    norm_num
  · intro h2 i hi
    exact get_1Dgrid_getD Lh nx nxoffset nxsl nxskip h2 hi
  · intro h2
    rw [get_1Dgrid_getD Lh nx nxoffset nxsl nxskip h2 (by omega)]
    have hcast : ((nxsl - 1 : ℕ) : ℚ) = (nxsl : ℚ) - 1 := by
      rw [Nat.cast_sub h1, Nat.cast_one]
    have hne : (nxsl : ℚ) - 1 ≠ 0 := by
      have : (2 : ℚ) ≤ (nxsl : ℚ) := by exact_mod_cast h2
      intro hc
      rw [sub_eq_zero] at hc
      rw [hc] at this
      norm_num at this
    rw [hcast, mul_comm ((nxsl : ℚ) - 1), div_mul_cancel₀ _ hne]

/-- C5 (witness): for `Lh = 1`, `nx = 4`, `offset = 1`, `count = 3`,
`stride = 2` the grid has 3 points and its last point is the literal end
value `1/4 + (1/4)*3*2 = 7/4`. -/
theorem get_1Dgrid_linspace_semantics_witness :
    (get_1Dgrid 1 4 1 3 2).length = 3 ∧
    (get_1Dgrid 1 4 1 3 2).getD (3 - 1) 0 = 1 / (4 : ℚ) * 1 + 1 / (4 : ℚ) * 3 * 2 :=
  ⟨(get_1Dgrid_linspace_semantics 1 4 1 3 2 (by omega)).1,
    (get_1Dgrid_linspace_semantics 1 4 1 3 2 (by omega)).2.2.2 (by omega)⟩

/-- C8: the coordinate sequence of `get_1Dgrid` is strictly increasing
whenever the physical length is positive, the full resolution is positive
and the stride is positive. -/
theorem get_1Dgrid_strictly_increasing (Lh : ℚ) (nx nxoffset nxsl nxskip : ℕ)
    (hL : 0 < Lh) (hnx : 0 < nx) (hskip : 1 ≤ nxskip) (hcnt : 1 ≤ nxsl) :
    ∀ i j, i < j → j < nxsl →
      (get_1Dgrid Lh nx nxoffset nxsl nxskip).getD i 0 <
        (get_1Dgrid Lh nx nxoffset nxsl nxskip).getD j 0 := by
  intro i j hij hj
  have h2 : 2 ≤ nxsl := by omega
  rw [get_1Dgrid_getD Lh nx nxoffset nxsl nxskip h2 (by omega),
    get_1Dgrid_getD Lh nx nxoffset nxsl nxskip h2 hj]
  have hdx : 0 < Lh / (nx : ℚ) := div_pos hL (by exact_mod_cast hnx)
  have hstep : 0 < (Lh / (nx : ℚ) * (nxsl : ℚ) * (nxskip : ℚ)) / ((nxsl : ℚ) - 1) := by
    apply div_pos
    · apply mul_pos (mul_pos hdx _)
      · exact_mod_cast hskip
      · exact_mod_cast (by omega : 0 < nxsl)
    · have : (2 : ℚ) ≤ (nxsl : ℚ) := by exact_mod_cast h2
      linarith
  have hcast : (i : ℚ) < (j : ℚ) := by exact_mod_cast hij
  have := mul_lt_mul_of_pos_right hcast hstep
  linarith

/-- C8 (witness): the grid for `Lh = 1`, `nx = 4`, `offset = 1`,
`count = 3`, `stride = 2` is strictly increasing at positions `0 < 1`. -/
theorem get_1Dgrid_strictly_increasing_witness :
    (get_1Dgrid 1 4 1 3 2).getD 0 0 < (get_1Dgrid 1 4 1 3 2).getD 1 0 :=
  get_1Dgrid_strictly_increasing 1 4 1 3 2 (by norm_num) (by omega) (by omega) (by omega)
    0 1 (by omega) (by omega)

end SST

end Claim5
section SeekCharacterization

namespace SST

lemma transposeZYX_of_ranges (g : ℕ → ℕ → ℕ → ℚ) (nxsl nysl nzsl : ℕ) :
    transposeZYX
      ((List.range nzsl).map fun k =>
        (List.range nysl).map fun j =>
          (List.range nxsl).map fun i => g i j k) nxsl nysl nzsl =
      (List.range nxsl).map fun x =>
        (List.range nysl).map fun y =>
          (List.range nzsl).map fun z => g x y z := by
  unfold transposeZYX
  apply List.map_congr_left
  intro x hx
  apply List.map_congr_left
  intro y hy
  apply List.map_congr_left
  intro z hz
  rw [List.mem_range] at hx hy hz
  rw [getD_range_map _ _ hz, getD_range_map _ _ hy, getD_range_map _ _ hx]

lemma seekExtract_eq_some (rf : ℕ → Option ℚ) (g : ℕ → ℕ → ℕ → ℚ)
    (nx ny nz nxsl nysl nzsl nxoffset nyoffset nzoffset nxskip nyskip nzskip nbyte : ℕ)
    (h : ∀ i j k, i < nxsl → j < nysl → k < nzsl →
      rf (seekPos nx ny nxoffset nyoffset nzoffset nxskip nyskip nzskip nbyte i j k) =
        some (g i j k)) :
    seekExtract rf nx ny nz nxsl nysl nzsl nxoffset nyoffset nzoffset nxskip nyskip nzskip nbyte =
      some ((List.range nxsl).map fun x =>
        (List.range nysl).map fun y =>
          (List.range nzsl).map fun z => g x y z) := by
  have hz : optRows (fun nyshift =>
        optRows (fun nxshift =>
            optRows (fun i =>
                rf ((nzoffset * (nx * ny * nbyte) + nyoffset * (nx * nbyte) + nxoffset * nbyte)
                  + (i * nxskip) * nbyte + nxshift + nyshift)) 1 0 nxsl)
          ((nx * nyskip) * nbyte) 0 nysl)
        (((nx * ny) * nzskip) * nbyte) 0 nzsl =
      some ((List.range nzsl).map fun k =>
        (List.range nysl).map fun j =>
          (List.range nxsl).map fun i => g i j k) := by
    apply optRows_eq_some
    intro k hk
    apply optRows_eq_some
    intro j hj
    apply optRows_eq_some
    intro i hi
    have harg : (nzoffset * (nx * ny * nbyte) + nyoffset * (nx * nbyte) + nxoffset * nbyte)
        + ((0 + i * 1) * nxskip) * nbyte + (0 + j * ((nx * nyskip) * nbyte))
        + (0 + k * (((nx * ny) * nzskip) * nbyte)) =
        seekPos nx ny nxoffset nyoffset nzoffset nxskip nyskip nzskip nbyte i j k := by
      unfold seekPos
      ring
    rw [harg]
    exact h i j k hi hj hk
  simp only [seekExtract]
  rw [hz]
  simp only [transposeZYX_of_ranges]

/-- Provided every axis of the subcube specification stays inside the
full grid and the file holds exactly `nx*ny*nz` samples, the pointwise
seek strategy succeeds and returns the expected cube. -/
lemma get_data_single_points_eq_expected (file : List ℚ)
    (nx ny nz nxsl nysl nzsl nxoffset nyoffset nzoffset nxskip nyskip nzskip nbyte : ℕ)
    (hb : 1 ≤ nbyte) (hlen : file.length = nx * ny * nz)
    (hvx : nxoffset + (nxsl - 1) * nxskip < nx)
    (hvy : nyoffset + (nysl - 1) * nyskip < ny)
    (hvz : nzoffset + (nzsl - 1) * nzskip < nz) :
    get_data_single_points file nx ny nz nxsl nysl nzsl
        nxoffset nyoffset nzoffset nxskip nyskip nzskip nbyte =
      some (expectedCube file nx ny nxsl nysl nzsl
        nxoffset nyoffset nzoffset nxskip nyskip nzskip) := by
  unfold get_data_single_points expectedCube
  apply seekExtract_eq_some
  intro i j k hi hj hk
  have hpos : seekPos nx ny nxoffset nyoffset nzoffset nxskip nyskip nzskip nbyte i j k =
      nbyte * ((nxoffset + i * nxskip)
        + nx * ((nyoffset + j * nyskip) + ny * (nzoffset + k * nzskip))) := by
    unfold seekPos
    ring
  have hidx : (nxoffset + i * nxskip)
      + nx * ((nyoffset + j * nyskip) + ny * (nzoffset + k * nzskip)) < nx * ny * nz := by
    have h1 := addMulLt (axisLt hvy hj) (axisLt hvz hk)
    have h2 := addMulLt (axisLt hvx hi) h1
    rwa [← Nat.mul_assoc] at h2
  rw [hpos]
  unfold readFloat
  rw [if_pos, Nat.mul_div_cancel_left _ (by omega : 0 < nbyte)]
  rw [hlen]
  calc nbyte * ((nxoffset + i * nxskip)
        + nx * ((nyoffset + j * nyskip) + ny * (nzoffset + k * nzskip))) + nbyte
      = nbyte * (((nxoffset + i * nxskip)
        + nx * ((nyoffset + j * nyskip) + ny * (nzoffset + k * nzskip))) + 1) := by ring
    _ ≤ nbyte * (nx * ny * nz) := Nat.mul_le_mul_left nbyte hidx

end SST

end SeekCharacterization
section MemmapCharacterization

namespace SST

lemma pySlice_eq (len start count skip : ℕ) (hskip : 1 ≤ skip) (hcnt : 1 ≤ count)
    (hv : start + (count - 1) * skip < len) :
    pySlice len start (start + count * skip) skip =
      (List.range count).map (fun t => start + t * skip) := by
  simp only [pySlice]
  have hstart : min start len = start := Nat.min_eq_left (by omega)
  have hmul : (count - 1) * skip + skip = count * skip := by
    have e : (count - 1) + 1 = count := by omega
    calc (count - 1) * skip + skip = ((count - 1) + 1) * skip := by ring
      _ = count * skip := by rw [e]
  have hM1 : start + (count - 1) * skip + 1 ≤ min (start + count * skip) len := by omega
  have hM2 : min (start + count * skip) len ≤ start + count * skip := Nat.min_le_left _ _
  have hdiv : (min (start + count * skip) len - min start len + skip - 1) / skip = count := by
    rw [hstart]
    have hlow : count * skip ≤ min (start + count * skip) len - start + skip - 1 := by omega
    have hhigh : min (start + count * skip) len - start + skip - 1 < (count + 1) * skip := by
      have e : (count + 1) * skip = count * skip + skip := by ring
      omega
    have hle : count ≤ (min (start + count * skip) len - start + skip - 1) / skip :=
      (Nat.le_div_iff_mul_le (by omega)).2 hlow
    have hlt : (min (start + count * skip) len - start + skip - 1) / skip < count + 1 :=
      (Nat.div_lt_iff_lt_mul (by omega)).2 hhigh
    omega
  rw [hdiv, hstart]

lemma transpose210_of_ranges (g : ℕ → ℕ → ℕ → ℚ) (nxsl nysl nzsl : ℕ)
    (hz : 1 ≤ nzsl) (hy : 1 ≤ nysl) :
    transpose210
      ((List.range nzsl).map fun k =>
        (List.range nysl).map fun j =>
          (List.range nxsl).map fun i => g i j k) =
      (List.range nxsl).map fun x =>
        (List.range nysl).map fun y =>
          (List.range nzsl).map fun z => g x y z := by
  unfold transpose210
  have e1 : (((List.range nzsl).map fun k =>
      (List.range nysl).map fun j =>
        (List.range nxsl).map fun i => g i j k)).getD 0 [] =
      (List.range nysl).map fun j => (List.range nxsl).map fun i => g i j 0 :=
    getD_range_map _ _ hz
  rw [e1, getD_range_map _ _ hy]
  simp only [List.length_map, List.length_range]
  exact transposeZYX_of_ranges g nxsl nysl nzsl

/-- Provided every axis of the subcube specification stays inside the
full grid and the file holds exactly `nx*ny*nz` samples, the memmap
strategy succeeds and returns the expected cube. -/
lemma get_data_memmap_eq_expected (file : List ℚ)
    (nx ny nz nxsl nysl nzsl nxoffset nyoffset nzoffset nxskip nyskip nzskip : ℕ)
    (hcy : 1 ≤ nysl) (hcz : 1 ≤ nzsl)
    (hkx : 1 ≤ nxskip) (hky : 1 ≤ nyskip) (hkz : 1 ≤ nzskip)
    (hcx : 1 ≤ nxsl)
    (hlen : file.length = nx * ny * nz)
    (hvx : nxoffset + (nxsl - 1) * nxskip < nx)
    (hvy : nyoffset + (nysl - 1) * nyskip < ny)
    (hvz : nzoffset + (nzsl - 1) * nzskip < nz) :
    get_data_memmap file nx ny nz nxsl nysl nzsl
        nxoffset nyoffset nzoffset nxskip nyskip nzskip =
      some (expectedCube file nx ny nxsl nysl nzsl
        nxoffset nyoffset nzoffset nxskip nyskip nzskip) := by
  unfold get_data_memmap
  rw [if_pos (by omega)]
  rw [pySlice_eq nz nzoffset nzsl nzskip hkz hcz hvz,
    pySlice_eq ny nyoffset nysl nyskip hky hcy hvy,
    pySlice_eq nx nxoffset nxsl nxskip hkx hcx hvx]
  simp only [List.map_map, Function.comp_def]
  rw [transpose210_of_ranges _ nxsl nysl nzsl hcz hcy]
  rfl

end SST

end MemmapCharacterization
section FromfileCharacterization

namespace SST

lemma everyNth_fromfile (file : List ℚ) (nbyte s nxsl nxskip : ℕ)
    (hb : 1 ≤ nbyte) (hk : 1 ≤ nxskip) (hc : 1 ≤ nxsl)
    (hbound : s + (nxsl - 1) * nxskip < file.length) :
    everyNth (np_fromfile file nbyte (nxsl * nxskip) (nbyte * s)) nxskip =
      (List.range nxsl).map fun t => file.getD (s + t * nxskip) 0 := by
  simp only [np_fromfile, everyNth]
  rw [Nat.mul_div_cancel_left s (by omega : 0 < nbyte)]
  have hlen : ((file.drop s).take (nxsl * nxskip)).length =
      min (nxsl * nxskip) (file.length - s) := by
    simp [List.length_take, List.length_drop]
  have hmul : (nxsl - 1) * nxskip + nxskip = nxsl * nxskip := by
    have e : (nxsl - 1) + 1 = nxsl := by omega
    calc (nxsl - 1) * nxskip + nxskip = ((nxsl - 1) + 1) * nxskip := by ring
      _ = nxsl * nxskip := by rw [e]
  have hr2 : min (nxsl * nxskip) (file.length - s) ≤ nxsl * nxskip := Nat.min_le_left _ _
  have hcount : (((file.drop s).take (nxsl * nxskip)).length + nxskip - 1) / nxskip = nxsl := by
    rw [hlen]
    have hle := (Nat.le_div_iff_mul_le (show 0 < nxskip by omega)).2
      (show nxsl * nxskip ≤ min (nxsl * nxskip) (file.length - s) + nxskip - 1 by omega)
    have hlt := (Nat.div_lt_iff_lt_mul (show 0 < nxskip by omega)).2
      (show min (nxsl * nxskip) (file.length - s) + nxskip - 1 < (nxsl + 1) * nxskip by
        have e : (nxsl + 1) * nxskip = nxsl * nxskip + nxskip := by ring
        omega)
    omega
  rw [hcount]
  apply List.map_congr_left
  intro t ht
  rw [List.mem_range] at ht
  have htmul : t * nxskip ≤ (nxsl - 1) * nxskip := Nat.mul_le_mul_right _ (by omega)
  have htlt : t * nxskip < ((file.drop s).take (nxsl * nxskip)).length := by
    rw [hlen]; omega
  have hsb : s + t * nxskip < file.length := by omega
  rw [List.getD_eq_getElem _ _ htlt, List.getD_eq_getElem _ _ hsb]
  simp [List.getElem_take, List.getElem_drop]

lemma fromfileRow_eq (file : List ℚ) (nbyte s nxsl nxskip : ℕ)
    (hb : 1 ≤ nbyte) (hk : 1 ≤ nxskip) (hc : 1 ≤ nxsl)
    (hbound : s + (nxsl - 1) * nxskip < file.length) :
    fromfileRow file nbyte nxsl nxskip (nbyte * s) =
      some ((List.range nxsl).map fun t => file.getD (s + t * nxskip) 0) := by
  simp only [fromfileRow]
  rw [everyNth_fromfile file nbyte s nxsl nxskip hb hk hc hbound]
  rw [if_pos (by simp)]

/-- Provided every axis of the subcube specification stays inside the
full grid and the file holds exactly `nx*ny*nz` samples, the fromfile
strategy succeeds and returns the expected cube. -/
lemma get_data_fromfile_eq_expected (file : List ℚ)
    (nx ny nz nxsl nysl nzsl nxoffset nyoffset nzoffset nxskip nyskip nzskip nbyte : ℕ)
    (hb : 1 ≤ nbyte) (hkx : 1 ≤ nxskip) (hcx : 1 ≤ nxsl)
    (hlen : file.length = nx * ny * nz)
    (hvx : nxoffset + (nxsl - 1) * nxskip < nx)
    (hvy : nyoffset + (nysl - 1) * nyskip < ny)
    (hvz : nzoffset + (nzsl - 1) * nzskip < nz) :
    get_data_fromfile file nx ny nz nxsl nysl nzsl
        nxoffset nyoffset nzoffset nxskip nyskip nzskip nbyte =
      some (expectedCube file nx ny nxsl nysl nzsl
        nxoffset nyoffset nzoffset nxskip nyskip nzskip) := by
  have hrows : optRows (fun nyshift =>
        optRows (fun nxshift =>
            fromfileRow file nbyte nxsl nxskip
              ((nzoffset * (nx * ny * nbyte) + nyoffset * (nx * nbyte) + nxoffset * nbyte)
                + nxshift + nyshift))
          ((nx * nyskip) * nbyte) 0 nysl)
        (((nx * ny) * nzskip) * nbyte) 0 nzsl =
      some ((List.range nzsl).map fun k =>
        (List.range nysl).map fun j =>
          (List.range nxsl).map fun i =>
            file.getD ((nxoffset + i * nxskip)
              + nx * ((nyoffset + j * nyskip) + ny * (nzoffset + k * nzskip))) 0) := by
    apply optRows_eq_some
    intro k hk
    apply optRows_eq_some
    intro j hj
    have hofs : (nzoffset * (nx * ny * nbyte) + nyoffset * (nx * nbyte) + nxoffset * nbyte)
        + (0 + j * ((nx * nyskip) * nbyte)) + (0 + k * (((nx * ny) * nzskip) * nbyte)) =
        nbyte * (nxoffset + nx * ((nyoffset + j * nyskip) + ny * (nzoffset + k * nzskip))) := by
      ring
    rw [hofs]
    have hbound : (nxoffset + nx * ((nyoffset + j * nyskip) + ny * (nzoffset + k * nzskip)))
        + (nxsl - 1) * nxskip < file.length := by
      rw [hlen]
      have h1 := addMulLt (axisLt hvy hj) (axisLt hvz hk)
      have h2 := addMulLt (axisLt hvx (show nxsl - 1 < nxsl by omega)) h1
      rw [← Nat.mul_assoc] at h2
      omega
    rw [fromfileRow_eq file nbyte _ nxsl nxskip hb hkx hcx hbound]
    refine congrArg some ?_
    apply List.map_congr_left
    intro t ht
    exact congrArg (fun m => file.getD m 0) (by ring)
  simp only [get_data_fromfile]
  rw [hrows]
  simp only [transposeZYX_of_ranges]
  rfl

end SST

end FromfileCharacterization
section StrategyClaims

namespace SST

/-- C1: for `elementSizeBytes = 4`, any grid `(nx, ny, nz)`, any subcube
specification with `offset ≥ 0`, `count ≥ 1`, `stride ≥ 1` and
`offset + (count-1)*stride < fullAxisExtent` on each axis, and any file of
exactly `nx*ny*nz` samples, the seek, memmap and fromfile strategies all
return the same `(countX, countY, countZ)` cube of values. -/
theorem strategies_equivalent (file : List ℚ)
    (nx ny nz nxsl nysl nzsl nxoffset nyoffset nzoffset nxskip nyskip nzskip : ℕ)
    (hcx : 1 ≤ nxsl) (hcy : 1 ≤ nysl) (hcz : 1 ≤ nzsl)
    (hkx : 1 ≤ nxskip) (hky : 1 ≤ nyskip) (hkz : 1 ≤ nzskip)
    (hvx : nxoffset + (nxsl - 1) * nxskip < nx)
    (hvy : nyoffset + (nysl - 1) * nyskip < ny)
    (hvz : nzoffset + (nzsl - 1) * nzskip < nz)
    (hlen : file.length = nx * ny * nz) :
    get_data_single_points file nx ny nz nxsl nysl nzsl
        nxoffset nyoffset nzoffset nxskip nyskip nzskip 4 =
      some (expectedCube file nx ny nxsl nysl nzsl
        nxoffset nyoffset nzoffset nxskip nyskip nzskip) ∧
    get_data_memmap file nx ny nz nxsl nysl nzsl
        nxoffset nyoffset nzoffset nxskip nyskip nzskip =
      some (expectedCube file nx ny nxsl nysl nzsl
        nxoffset nyoffset nzoffset nxskip nyskip nzskip) ∧
    get_data_fromfile file nx ny nz nxsl nysl nzsl
        nxoffset nyoffset nzoffset nxskip nyskip nzskip 4 =
      some (expectedCube file nx ny nxsl nysl nzsl
        nxoffset nyoffset nzoffset nxskip nyskip nzskip) :=
  ⟨get_data_single_points_eq_expected file nx ny nz nxsl nysl nzsl
      nxoffset nyoffset nzoffset nxskip nyskip nzskip 4 (by omega) hlen hvx hvy hvz,
    get_data_memmap_eq_expected file nx ny nz nxsl nysl nzsl
      nxoffset nyoffset nzoffset nxskip nyskip nzskip hcy hcz hkx hky hkz hcx hlen hvx hvy hvz,
    get_data_fromfile_eq_expected file nx ny nz nxsl nysl nzsl
      nxoffset nyoffset nzoffset nxskip nyskip nzskip 4 (by omega) hkx hcx hlen hvx hvy hvz⟩

/-- C1 (witness): the three strategies agree on the concrete scenario of
spec.md section 8. -/
theorem strategies_equivalent_witness :
    get_data_single_points file24 4 3 2 2 2 1 1 0 0 1 1 1 4 =
      some (expectedCube file24 4 3 2 2 1 1 0 0 1 1 1) ∧
    get_data_memmap file24 4 3 2 2 2 1 1 0 0 1 1 1 =
      some (expectedCube file24 4 3 2 2 1 1 0 0 1 1 1) ∧
    get_data_fromfile file24 4 3 2 2 2 1 1 0 0 1 1 1 4 =
      some (expectedCube file24 4 3 2 2 1 1 0 0 1 1 1) :=
  strategies_equivalent file24 4 3 2 2 2 1 1 0 0 1 1 1
    (by decide) (by decide) (by decide) (by decide) (by decide) (by decide)
    (by decide) (by decide) (by decide) (by decide)

/-- C2: in the pointwise-seek loop nest, the byte position read for
logical coordinate `(i, j, k)` equals
`elementSizeBytes*(offsetX + nx*(offsetY + ny*offsetZ))
 + i*strideX*elementSizeBytes + j*(nx*strideY)*elementSizeBytes
 + k*(nx*ny*strideZ)*elementSizeBytes`, observed by running the loop nest
with an instrumented read that returns its own byte position. -/
theorem seek_read_position
    (nx ny nz nxsl nysl nzsl nxoffset nyoffset nzoffset nxskip nyskip nzskip nbyte i j k : ℕ)
    (hi : i < nxsl) (hj : j < nysl) (hk : k < nzsl) :
    (seekExtract (fun p => some ((p : ℕ) : ℚ)) nx ny nz nxsl nysl nzsl
        nxoffset nyoffset nzoffset nxskip nyskip nzskip nbyte).map (fun c => at3 c i j k) =
      some (((nbyte * (nxoffset + nx * (nyoffset + ny * nzoffset))
        + i * nxskip * nbyte + j * (nx * nyskip) * nbyte + k * (nx * ny * nzskip) * nbyte : ℕ) : ℚ)) := by
  rw [seekExtract_eq_some (fun p => some ((p : ℕ) : ℚ))
    (fun i j k => ((seekPos nx ny nxoffset nyoffset nzoffset nxskip nyskip nzskip nbyte i j k : ℕ) : ℚ))
    nx ny nz nxsl nysl nzsl nxoffset nyoffset nzoffset nxskip nyskip nzskip nbyte
    (fun _ _ _ _ _ _ => rfl)]
  simp only [Option.map_some', at3]
  rw [getD_range_map _ _ hi, getD_range_map _ _ hj, getD_range_map _ _ hk]
  have harith : seekPos nx ny nxoffset nyoffset nzoffset nxskip nyskip nzskip nbyte i j k =
      nbyte * (nxoffset + nx * (nyoffset + ny * nzoffset))
        + i * nxskip * nbyte + j * (nx * nyskip) * nbyte + k * (nx * ny * nzskip) * nbyte := by
    unfold seekPos
    ring
  rw [harith]

/-- C2 (witness): at `(i, j, k) = (1, 1, 0)` in the concrete scenario the
observed read position is `4*(1 + 4*0) + 1*1*4 + 1*4*4 + 0 = 24`. -/
theorem seek_read_position_witness :
    (seekExtract (fun p => some ((p : ℕ) : ℚ)) 4 3 2 2 2 1 1 0 0 1 1 1 4).map
        (fun c => at3 c 1 1 0) =
      some (((4 * (1 + 4 * (0 + 3 * 0))
        + 1 * 1 * 4 + 1 * (4 * 1) * 4 + 0 * (4 * 3 * 1) * 4 : ℕ) : ℚ)) :=
  seek_read_position 4 3 2 2 2 1 1 0 0 1 1 1 4 1 1 0 (by decide) (by decide) (by decide)

/-- C6: extracting with zero offsets, counts equal to the full grid
extents and unit strides returns, under every strategy, the whole file
reinterpreted in `(x, y, z)` order: entry `(x, y, z)` is the sample at
flat index `x + nx*(y + ny*z)`. -/
theorem full_resolution_identity (file : List ℚ) (nx ny nz : ℕ)
    (hx : 1 ≤ nx) (hy : 1 ≤ ny) (hz : 1 ≤ nz)
    (hlen : file.length = nx * ny * nz) :
    get_data_single_points file nx ny nz nx ny nz 0 0 0 1 1 1 4 =
      some ((List.range nx).map fun x => (List.range ny).map fun y =>
        (List.range nz).map fun z => file.getD (x + nx * (y + ny * z)) 0) ∧
    get_data_memmap file nx ny nz nx ny nz 0 0 0 1 1 1 =
      some ((List.range nx).map fun x => (List.range ny).map fun y =>
        (List.range nz).map fun z => file.getD (x + nx * (y + ny * z)) 0) ∧
    get_data_fromfile file nx ny nz nx ny nz 0 0 0 1 1 1 4 =
      some ((List.range nx).map fun x => (List.range ny).map fun y =>
        (List.range nz).map fun z => file.getD (x + nx * (y + ny * z)) 0) := by
  have he : expectedCube file nx ny nx ny nz 0 0 0 1 1 1 =
      (List.range nx).map fun x => (List.range ny).map fun y =>
        (List.range nz).map fun z => file.getD (x + nx * (y + ny * z)) 0 := by
    unfold expectedCube
    apply List.map_congr_left
    intro x _
    apply List.map_congr_left
    intro y _
    apply List.map_congr_left
    intro z _
    exact congrArg (fun m => file.getD m 0) (by ring)
  rw [← he]
  refine ⟨?_, ?_, ?_⟩
  · exact get_data_single_points_eq_expected file nx ny nz nx ny nz 0 0 0 1 1 1 4
      (by omega) hlen (by omega) (by omega) (by omega)
  · exact get_data_memmap_eq_expected file nx ny nz nx ny nz 0 0 0 1 1 1
      hy hz (by omega) (by omega) (by omega) hx hlen (by omega) (by omega) (by omega)
  · exact get_data_fromfile_eq_expected file nx ny nz nx ny nz 0 0 0 1 1 1 4
      (by omega) (by omega) hx hlen (by omega) (by omega) (by omega)

/-- C6 (witness): the full-resolution extraction of a concrete 6-sample
file with `nx = 3`, `ny = 2`, `nz = 1`. -/
theorem full_resolution_identity_witness :
    get_data_single_points [10, 11, 12, 13, 14, 15] 3 2 1 3 2 1 0 0 0 1 1 1 4 =
      some ((List.range 3).map fun x => (List.range 2).map fun y =>
        (List.range 1).map fun z =>
          ([10, 11, 12, 13, 14, 15] : List ℚ).getD (x + 3 * (y + 2 * z)) 0) ∧
    get_data_memmap [10, 11, 12, 13, 14, 15] 3 2 1 3 2 1 0 0 0 1 1 1 =
      some ((List.range 3).map fun x => (List.range 2).map fun y =>
        (List.range 1).map fun z =>
          ([10, 11, 12, 13, 14, 15] : List ℚ).getD (x + 3 * (y + 2 * z)) 0) ∧
    get_data_fromfile [10, 11, 12, 13, 14, 15] 3 2 1 3 2 1 0 0 0 1 1 1 4 =
      some ((List.range 3).map fun x => (List.range 2).map fun y =>
        (List.range 1).map fun z =>
          ([10, 11, 12, 13, 14, 15] : List ℚ).getD (x + 3 * (y + 2 * z)) 0) :=
  full_resolution_identity [10, 11, 12, 13, 14, 15] 3 2 1
    (by decide) (by decide) (by decide) (by decide)

/-- C7: on the synthetic 4x3x2 file whose sample at flat index
`f = x + 4*(y + 3*z)` has value `f`, the extraction with
`offsetX = 1, countX = 2, strideX = 1; offsetY = 0, countY = 2,
strideY = 1; offsetZ = 0, countZ = 1, strideZ = 1` returns the
`(2, 2, 1)` cube with `[0,0,0] = 1`, `[1,0,0] = 2`, `[0,1,0] = 5`,
`[1,1,0] = 6`. -/
theorem concrete_scenario_seek :
    get_data_single_points file24 4 3 2 2 2 1 1 0 0 1 1 1 4 =
      some [[[1], [5]], [[2], [6]]] := by decide

end SST

end StrategyClaims
section ErrorClaims

namespace SST

/-- C3 (counterexample): for the 1x1x1 grid and a `SubcubeSpec` whose z
axis is out of range (`offsetZ + (countZ-1)*strideZ = 1 ≥ nz = 1`), the
memmap strategy is not rejected: it silently clamps the slice and returns
a `(1, 1, 1)` cube instead of the requested `(1, 1, 2)` one. -/
theorem memmap_clamps_out_of_range :
    get_data "memmap" [(5 : ℚ)] 1 1 1 1 1 2 0 0 0 1 1 1 4 = some [[[5]]] := by decide

/-- C3 (amended): no up-front range validation exists anywhere in
`get_data` or the strategies.  Whenever the file holds at least
`nx*ny*nz` samples, the memmap strategy returns a cube for every
`SubcubeSpec`, out of range or not (Python slicing silently clamps the
out-of-range part); the seek strategy fails only at the moment an
individual read goes past end of file, after all earlier reads have been
performed. -/
theorem memmap_never_rejects (file : List ℚ)
    (nx ny nz nxsl nysl nzsl nxoffset nyoffset nzoffset nxskip nyskip nzskip nbyte : ℕ)
    (hlen : nx * ny * nz ≤ file.length) :
    (get_data "memmap" file nx ny nz nxsl nysl nzsl
        nxoffset nyoffset nzoffset nxskip nyskip nzskip nbyte).isSome = true := by
  simp only [get_data]
  rw [if_neg (by decide)]
  simp only [if_true]
  unfold get_data_memmap
  rw [if_pos hlen]
  rfl

/-- C3 (witness): a concrete out-of-range specification the memmap
strategy accepts. -/
theorem memmap_never_rejects_witness :
    (get_data "memmap" [(5 : ℚ), 7] 1 1 2 1 1 3 0 0 0 1 1 1 4).isSome = true :=
  memmap_never_rejects [(5 : ℚ), 7] 1 1 2 1 1 3 0 0 0 1 1 1 4 (by decide)

/-- C9: if the byte range of the read for any in-range logical coordinate
`(i, j, k)` extends past the end of the file — so that the positioned
read returns fewer than `nbyte` bytes — the whole pointwise-seek
extraction fails and no partial cube is returned. -/
theorem seek_short_read_fails (file : List ℚ)
    (nx ny nz nxsl nysl nzsl nxoffset nyoffset nzoffset nxskip nyskip nzskip nbyte i j k : ℕ)
    (hi : i < nxsl) (hj : j < nysl) (hk : k < nzsl)
    (hshort : nbyte * file.length <
      seekPos nx ny nxoffset nyoffset nzoffset nxskip nyskip nzskip nbyte i j k + nbyte) :
    get_data_single_points file nx ny nz nxsl nysl nzsl
      nxoffset nyoffset nzoffset nxskip nyskip nzskip nbyte = none := by
  have hnone : optRows (fun nyshift =>
        optRows (fun nxshift =>
            optRows (fun i =>
                readFloat file nbyte
                  ((nzoffset * (nx * ny * nbyte) + nyoffset * (nx * nbyte) + nxoffset * nbyte)
                    + (i * nxskip) * nbyte + nxshift + nyshift)) 1 0 nxsl)
          ((nx * nyskip) * nbyte) 0 nysl)
        (((nx * ny) * nzskip) * nbyte) 0 nzsl = none := by
    apply optRows_eq_none _ _ nzsl 0 k hk
    apply optRows_eq_none _ _ nysl 0 j hj
    apply optRows_eq_none _ _ nxsl 0 i hi
    have harg : (nzoffset * (nx * ny * nbyte) + nyoffset * (nx * nbyte) + nxoffset * nbyte)
        + ((0 + i * 1) * nxskip) * nbyte + (0 + j * ((nx * nyskip) * nbyte))
        + (0 + k * (((nx * ny) * nzskip) * nbyte)) =
        seekPos nx ny nxoffset nyoffset nzoffset nxskip nyskip nzskip nbyte i j k := by
      unfold seekPos
      ring
    rw [harg]
    unfold readFloat
    rw [if_neg (by omega)]
  simp only [get_data_single_points, seekExtract]
  rw [hnone]

/-- C9 (witness): on a 1-sample file, asking for `countX = 2` makes the
second read (byte position 4, needing bytes 4-7 of a 4-byte file) short,
and the whole call fails. -/
theorem seek_short_read_fails_witness :
    get_data_single_points [(0 : ℚ)] 1 1 1 2 1 1 0 0 0 1 1 1 4 = none :=
  seek_short_read_fails [(0 : ℚ)] 1 1 1 2 1 1 0 0 0 1 1 1 4 1 0 0
    (by decide) (by decide) (by decide) (by decide)

end SST

end ErrorClaims
